import Mathlib

/-!
Verification of the caching and invalidation layer of the BlitzFrontend
backend, a shallow embedding of `backend/app/cache_service.py` (class
`CacheService`).

The backing Redis store is modelled as an association list from key strings
to `(ttl, value)` pairs with functional overwrite; every pattern the service
ever passes to `redis.keys` is a literal followed by `*`, so pattern scans
are modelled as literal prefix scans.  `json.dumps` of a Python list is
always a non-empty string and `json.loads` inverts it on the record lists the
service stores, so a stored blob is modelled by the record list itself and
the Python truthiness test `if cached_data:` coincides with key presence.
-/

namespace CacheSpec

/-- A document record: a Python dict of field names to values, modelled as an
association list of string fields.  The cache passes records through
unmodified, so only a decidable equality on them matters. -/
abbrev Record : Type := List (String × String)

/-- The backing store: bindings from key to `(ttl seconds, record list)`,
most recent binding first. -/
abbrev Store : Type := List (String × Nat × List Record)

/-- `redis.get key`: the first binding wins, matching the overwrite in
`storeSet`. -/
def storeGet : Store → String → Option (Nat × List Record)
  | [], _ => none
  | e :: rest, k => if e.1 == k then some e.2 else storeGet rest k

/-- `redis.setex key ttl value`: overwrite any existing binding for `k`. -/
def storeSet (st : Store) (k : String) (ttl : Nat) (v : List Record) : Store :=
  (k, ttl, v) :: st.filter (fun e => !(e.1 == k))

/-- Literal-prefix match of `pre` against `k`. -/
def preMatch (pre k : String) : Bool :=
  pre.data.isPrefixOf k.data

/-- `redis.keys (pre ++ "*")`: every key currently bound that starts with the
literal `pre`. -/
def globKeys (st : Store) (pre : String) : List String :=
  (st.map (fun e => e.1)).filter (fun k => preMatch pre k)

/-- `redis.delete *keys`. -/
def storeDelete (st : Store) (ks : List String) : Store :=
  st.filter (fun e => !(ks.contains e.1))

/-- Python `str.lower` (ASCII case folding, which covers every string the
service lowercases). -/
def pyLower (s : String) : String :=
  String.mk (s.data.map Char.toLower)

/-- Lexicographic order on code points, the order Python `sorted` uses on
strings (code points coincide with UTF-16ish ordering only beyond the ASCII
range, which no parameter name leaves). -/
def keyLe : List Char → List Char → Bool
  | [], _ => true
  | _ :: _, [] => false
  | a :: as, b :: bs =>
    if a.toNat < b.toNat then true
    else if b.toNat < a.toNat then false
    else keyLe as bs

/-- Insertion step of `sorted(kwargs.items())`; parameter names are the sort
key and are pairwise distinct, coming from Python keyword arguments. -/
def insertParam (p : String × String) : List (String × String) → List (String × String)
  | [] => [p]
  | q :: rest => if keyLe p.1.data q.1.data then p :: q :: rest else q :: insertParam p rest

/-- `sorted(kwargs.items())` by insertion sort. -/
def sortParams : List (String × String) → List (String × String)
  | [] => []
  | p :: rest => insertParam p (sortParams rest)

/-- `":".join(segments)`. -/
def joinParams : List String → String
  | [] => ""
  | [x] => x
  | x :: y :: rest => x ++ ":" ++ joinParams (y :: rest)

/-- `CacheService._get_key`: `feedback_docs:{container}:{key_type}` followed,
when keyword arguments are present, by `:k=v` segments in sorted order of the
parameter name. -/
def getKey (key_type container : String) (kwargs : List (String × String)) : String :=
  let base := "feedback_docs:" ++ container ++ ":" ++ key_type
  match kwargs with
  | [] => base
  | _ => base ++ ":" ++ joinParams ((sortParams kwargs).map (fun p => p.1 ++ "=" ++ p.2))

/-- Cache TTL settings (in seconds). -/
def PAGE_CACHE_TTL : Nat := 300

/-- TTL for the whole-container snapshot. -/
def ALL_CACHE_TTL : Nat := 600

/-- TTL for search results. -/
def SEARCH_CACHE_TTL : Nat := 180

/-- TTL for stats. -/
def STATS_CACHE_TTL : Nat := 900

/-- The cache service: the enabled flag fixed at construction and the backing
store contents (empty at construction). -/
structure CacheService where
  cache_enabled : Bool
  store : Store
deriving DecidableEq

/-- `CacheService.__init__`: a client exists exactly when `REDIS_URL` is set;
`cache_enabled` records that.  A fresh store holds no keys. -/
def CacheService.init (redis_url : Option String) : CacheService :=
  { cache_enabled := redis_url.isSome, store := [] }

/-- `CacheService.get_page_cache`. -/
def CacheService.get_page_cache (s : CacheService) (container : String) (page limit : Nat) :
    Option (List Record) :=
  if !s.cache_enabled then none
  else
    match storeGet s.store
        (getKey "page" container [("page", Nat.repr page), ("limit", Nat.repr limit)]) with
    | some (_, data) => some data
    | none => none

/-- `CacheService.set_page_cache`: no-op when disabled or when `data` is
empty. -/
def CacheService.set_page_cache (s : CacheService) (container : String) (page : Nat)
    (data : List Record) (limit : Nat) : CacheService :=
  if !s.cache_enabled || data.isEmpty then s
  else
    { s with
      store := storeSet s.store
        (getKey "page" container [("page", Nat.repr page), ("limit", Nat.repr limit)])
        PAGE_CACHE_TTL data }

/-- `CacheService.get_all_cache`. -/
def CacheService.get_all_cache (s : CacheService) (container : String) : Option (List Record) :=
  if !s.cache_enabled then none
  else
    match storeGet s.store (getKey "all" container []) with
    | some (_, data) => some data
    | none => none

/-- `CacheService.set_all_cache`: no-op when disabled or when `data` is
empty. -/
def CacheService.set_all_cache (s : CacheService) (container : String) (data : List Record) :
    CacheService :=
  if !s.cache_enabled || data.isEmpty then s
  else
    { s with
      store := storeSet s.store (getKey "all" container []) ALL_CACHE_TTL data }

/-- `CacheService.get_search_cache`: the query is lowercased before key
construction. -/
def CacheService.get_search_cache (s : CacheService) (container query field : String) :
    Option (List Record) :=
  if !s.cache_enabled then none
  else
    match storeGet s.store
        (getKey "search" container [("query", pyLower query), ("field", field)]) with
    | some (_, data) => some data
    | none => none

/-- `CacheService.set_search_cache`: note the source guards only on the
disabled flag, not on `data` being empty. -/
def CacheService.set_search_cache (s : CacheService) (container query field : String)
    (data : List Record) : CacheService :=
  if !s.cache_enabled then s
  else
    { s with
      store := storeSet s.store
        (getKey "search" container [("query", pyLower query), ("field", field)])
        SEARCH_CACHE_TTL data }

/-- `CacheService.invalidate_container_cache`: scan
`feedback_docs:{container}:*` and delete the matches, if any. -/
def CacheService.invalidate_container_cache (s : CacheService) (container : String) :
    CacheService :=
  if !s.cache_enabled then s
  else
    let keys := globKeys s.store ("feedback_docs:" ++ container ++ ":")
    if keys.isEmpty then s
    else { s with store := storeDelete s.store keys }

/-- `CacheService.invalidate_all_cache`: scan `feedback_docs:*` and delete
the matches, if any. -/
def CacheService.invalidate_all_cache (s : CacheService) : CacheService :=
  if !s.cache_enabled then s
  else
    let keys := globKeys s.store "feedback_docs:"
    if keys.isEmpty then s
    else { s with store := storeDelete s.store keys }

/-- The `for page in range(1, total_pages + 1)` loop body of
`warm_cache_for_container`, over the explicit list of page numbers. -/
def warmPagesLoop (container : String) (docs : List Record) (page_size : Nat) :
    CacheService → List Nat → CacheService
  | s, [] => s
  | s, page :: rest =>
    let page_data := (docs.drop ((page - 1) * page_size)).take page_size
    let s1 := if page_data.isEmpty then s
              else s.set_page_cache container page page_data page_size
    warmPagesLoop container docs page_size s1 rest

/-- `CacheService.warm_cache_for_container`. -/
def CacheService.warm_cache_for_container (s : CacheService) (container : String)
    (documents : List Record) : CacheService :=
  if !s.cache_enabled || documents.isEmpty then s
  else
    let max_cache_size := 1000
    let documents_to_cache :=
      if documents.length > max_cache_size then documents.take max_cache_size else documents
    let s1 := if documents_to_cache.length ≤ max_cache_size
              then s.set_all_cache container documents_to_cache else s
    let page_size := 20
    let total_pages := min 3 ((documents_to_cache.length + page_size - 1) / page_size)
    warmPagesLoop container documents_to_cache page_size s1 (List.range' 1 total_pages)

/-- The value `get_cache_stats` returns: either the bare `{"enabled": False}`
dict, or the full statistics.  The `memory_used` and `connected_clients`
fields come verbatim from the external store's `info()` call and carry no
cache state, so they are omitted from the model. -/
inductive CacheStats where
  | disabled : CacheStats
  | stats (total_keys : Nat) (keys_by_container : List (String × Nat)) : CacheStats
deriving DecidableEq

/-- One step of `containers[container] = containers.get(container, 0) + 1` on
an insertion-ordered dict. -/
def bumpCount : List (String × Nat) → String → List (String × Nat)
  | [], c => [(c, 1)]
  | e :: rest, c => if e.1 == c then (e.1, e.2 + 1) :: rest else e :: bumpCount rest c

/-- Accumulator-style core of Python `str.split(':')`. -/
def splitColonAux : List Char → List Char → List (List Char)
  | acc, [] => [acc.reverse]
  | acc, ch :: rest =>
    if ch = ':' then acc.reverse :: splitColonAux [] rest
    else splitColonAux (ch :: acc) rest

/-- Python `key.split(':')`. -/
def splitColon (s : String) : List String :=
  (splitColonAux [] s.data).map (fun l => String.mk l)

/-- `CacheService._group_keys_by_container`: for each key of the form
`feedback_docs:{container}:{type}:...` (at least three `:`-separated parts),
count it under `parts[1]`. -/
def groupKeysByContainer (keys : List String) : List (String × Nat) :=
  keys.foldl
    (fun containers key =>
      let parts := splitColon key
      if 3 ≤ parts.length then bumpCount containers (parts.getD 1 "") else containers)
    []

/-- `CacheService.get_cache_stats`. -/
def CacheService.get_cache_stats (s : CacheService) : CacheStats :=
  if !s.cache_enabled then CacheStats.disabled
  else
    let pattern_keys := globKeys s.store "feedback_docs:"
    CacheStats.stats pattern_keys.length (groupKeysByContainer pattern_keys)

/-- Lookup in the insertion-ordered `keys_by_container` dict. -/
def lookupCount (m : List (String × Nat)) (c : String) : Option Nat :=
  (m.find? (fun e => e.1 == c)).map (fun e => e.2)

/-- The `cache_keys_by_container` field of the stats dict (empty when the
cache is disabled and the field is absent). -/
def CacheStats.keysByContainer : CacheStats → List (String × Nat)
  | CacheStats.disabled => []
  | CacheStats.stats _ m => m

/-- Reading a digit string back as a number (used to invert `Nat.repr`). -/
def digitsVal (l : List Char) : Nat :=
  l.foldl (fun a c => a * 10 + (c.toNat - 48)) 0

/-- The order the insertion sort uses on keyword parameters. -/
abbrev paramLe (a b : String × String) : Prop := keyLe a.1.data b.1.data = true

/-! ### Store lemmas -/

@[simp] theorem storeGet_nil (k : String) : storeGet [] k = none := rfl

@[simp] theorem storeGet_set_self (st : Store) (k : String) (ttl : Nat) (v : List Record) :
    storeGet (storeSet st k ttl v) k = some (ttl, v) := by
  simp [storeGet, storeSet]

theorem storeGet_set_other (st : Store) (k k' : String) (ttl : Nat) (v : List Record)
    (h : k' ≠ k) : storeGet (storeSet st k ttl v) k' = storeGet st k' := by
  have hk : (k == k') = false := by
    simp only [beq_eq_false_iff_ne, ne_eq]
    exact fun hh => h hh.symm
  unfold storeSet
  rw [show storeGet ((k, ttl, v) :: st.filter (fun e => !(e.1 == k))) k' =
      storeGet (st.filter (fun e => !(e.1 == k))) k' from by simp [storeGet, hk]]
  induction st with
  | nil => rfl
  | cons e rest ih =>
    by_cases he : e.1 = k
    · rw [List.filter_cons_of_neg (by simp [he])]
      have h2 : (e.1 == k') = false := by rw [he]; exact hk
      rw [show storeGet (e :: rest) k' = storeGet rest k' from by simp [storeGet, h2]]
      exact ih
    · rw [List.filter_cons_of_pos (by simp [he])]
      rcases he' : (e.1 == k') with _ | _
      · rw [show storeGet (e :: rest) k' = storeGet rest k' from by simp [storeGet, he'],
          show storeGet (e :: rest.filter (fun e => !(e.1 == k))) k' =
            storeGet (rest.filter (fun e => !(e.1 == k))) k' from by simp [storeGet, he']]
        exact ih
      · rw [show storeGet (e :: rest) k' = some e.2 from by simp [storeGet, he'],
          show storeGet (e :: rest.filter (fun e => !(e.1 == k))) k' = some e.2 from by
            simp [storeGet, he']]

theorem storeGet_filter (st : Store) (p : String → Bool) (k : String) :
    storeGet (st.filter (fun e => !(p e.1))) k =
      if p k then none else storeGet st k := by
  induction st with
  | nil => simp [storeGet]
  | cons e rest ih =>
    by_cases hp : p e.1 = true
    · rw [List.filter_cons_of_neg (by simp [hp])]
      by_cases hk : e.1 = k
      · rw [ih, if_pos (hk ▸ hp), if_pos (hk ▸ hp)]
      · have hbeq : (e.1 == k) = false := by simp [hk]
        rw [ih, show storeGet (e :: rest) k = storeGet rest k from by simp [storeGet, hbeq]]
    · rw [List.filter_cons_of_pos (by simp [hp])]
      by_cases hk : e.1 = k
      · have hpk : p k = false := by
          rw [← hk]
          exact Bool.not_eq_true _ |>.mp hp
        simp [storeGet, hk, hpk]
      · have hbeq : (e.1 == k) = false := by simp [hk]
        rw [show storeGet (e :: rest.filter (fun e => !(p e.1))) k =
            storeGet (rest.filter (fun e => !(p e.1))) k from by simp [storeGet, hbeq],
          show storeGet (e :: rest) k = storeGet rest k from by simp [storeGet, hbeq], ih]

theorem storeDelete_globKeys (st : Store) (pre : String) :
    storeDelete st (globKeys st pre) = st.filter (fun e => !(preMatch pre e.1)) := by
  unfold storeDelete
  apply List.filter_congr
  intro e he
  have : (globKeys st pre).contains e.1 = preMatch pre e.1 := by
    rcases h : preMatch pre e.1 with _ | _
    · simp only [List.contains_eq_any_beq, List.any_eq_false]
      intro x hx
      simp only [globKeys, List.mem_filter, List.mem_map] at hx
      simp only [beq_iff_eq]
      rintro rfl
      have h2 := hx.2
      rw [h] at h2
      exact Bool.false_ne_true h2
    · simp only [List.contains_eq_any_beq, List.any_eq_true]
      refine ⟨e.1, ?_, by simp⟩
      simp only [globKeys, List.mem_filter, List.mem_map]
      exact ⟨⟨e, he, rfl⟩, h⟩
  rw [this]

theorem globKeys_nil_no_match (st : Store) (pre : String)
    (h : globKeys st pre = []) : ∀ e ∈ st, preMatch pre e.1 = false := by
  intro e he
  simp only [globKeys, List.filter_eq_nil_iff, List.mem_map] at h
  simpa using h e.1 ⟨e, he, rfl⟩

/-- The store left by `invalidate_container_cache` on an enabled service:
exactly the bindings whose key does not carry the container prefix. -/
theorem invalidate_container_store (s : CacheService) (container : String)
    (hen : s.cache_enabled = true) :
    (s.invalidate_container_cache container).store =
      s.store.filter (fun e => !(preMatch ("feedback_docs:" ++ container ++ ":") e.1)) := by
  unfold CacheService.invalidate_container_cache
  rw [hen]
  simp only [Bool.not_true, Bool.false_eq_true, if_false]
  by_cases h : (globKeys s.store ("feedback_docs:" ++ container ++ ":")).isEmpty
  · rw [if_pos h]
    have h' := globKeys_nil_no_match s.store _ (List.isEmpty_iff.mp h)
    exact ((List.filter_eq_self).mpr (fun e he => by simp [h' e he])).symm
  · rw [if_neg h]
    exact storeDelete_globKeys s.store _

/-! ### The enabled flag is fixed by construction and never changes -/

@[simp] theorem set_page_enabled (s : CacheService) (c : String) (p : Nat) (d : List Record)
    (l : Nat) : (s.set_page_cache c p d l).cache_enabled = s.cache_enabled := by
  unfold CacheService.set_page_cache
  split <;> rfl

@[simp] theorem set_all_enabled (s : CacheService) (c : String) (d : List Record) :
    (s.set_all_cache c d).cache_enabled = s.cache_enabled := by
  unfold CacheService.set_all_cache
  split <;> rfl

@[simp] theorem set_search_enabled (s : CacheService) (c q f : String) (d : List Record) :
    (s.set_search_cache c q f d).cache_enabled = s.cache_enabled := by
  unfold CacheService.set_search_cache
  split <;> rfl

@[simp] theorem invalidate_container_enabled (s : CacheService) (c : String) :
    (s.invalidate_container_cache c).cache_enabled = s.cache_enabled := by
  simp only [CacheService.invalidate_container_cache]
  split
  · rfl
  · split <;> rfl

/-! ### Conditional unfolding of the operations on an enabled service -/

theorem set_page_cache_eq (s : CacheService) (c : String) (p : Nat) (d : List Record) (l : Nat)
    (hen : s.cache_enabled = true) (hd : d ≠ []) :
    s.set_page_cache c p d l =
      { s with
        store := storeSet s.store
          (getKey "page" c [("page", Nat.repr p), ("limit", Nat.repr l)])
          PAGE_CACHE_TTL d } := by
  unfold CacheService.set_page_cache
  rw [hen]
  simp [List.isEmpty_iff, hd]

theorem set_all_cache_eq (s : CacheService) (c : String) (d : List Record)
    (hen : s.cache_enabled = true) (hd : d ≠ []) :
    s.set_all_cache c d =
      { s with store := storeSet s.store (getKey "all" c []) ALL_CACHE_TTL d } := by
  unfold CacheService.set_all_cache
  rw [hen]
  simp [List.isEmpty_iff, hd]

theorem set_search_cache_eq (s : CacheService) (c q f : String) (d : List Record)
    (hen : s.cache_enabled = true) :
    s.set_search_cache c q f d =
      { s with
        store := storeSet s.store
          (getKey "search" c [("query", pyLower q), ("field", f)])
          SEARCH_CACHE_TTL d } := by
  unfold CacheService.set_search_cache
  rw [hen]
  rfl

theorem get_page_cache_eq (s : CacheService) (c : String) (p l : Nat)
    (hen : s.cache_enabled = true) :
    s.get_page_cache c p l =
      (storeGet s.store (getKey "page" c [("page", Nat.repr p), ("limit", Nat.repr l)])).map
        (fun e => e.2) := by
  unfold CacheService.get_page_cache
  rw [hen]
  rcases storeGet s.store (getKey "page" c [("page", Nat.repr p), ("limit", Nat.repr l)]) with
    _ | ⟨t, d⟩ <;> rfl

theorem get_all_cache_eq (s : CacheService) (c : String) (hen : s.cache_enabled = true) :
    s.get_all_cache c = (storeGet s.store (getKey "all" c [])).map (fun e => e.2) := by
  unfold CacheService.get_all_cache
  rw [hen]
  rcases storeGet s.store (getKey "all" c []) with _ | ⟨t, d⟩ <;> rfl

theorem get_search_cache_eq (s : CacheService) (c q f : String)
    (hen : s.cache_enabled = true) :
    s.get_search_cache c q f =
      (storeGet s.store (getKey "search" c [("query", pyLower q), ("field", f)])).map
        (fun e => e.2) := by
  unfold CacheService.get_search_cache
  rw [hen]
  rcases storeGet s.store (getKey "search" c [("query", pyLower q), ("field", f)]) with
    _ | ⟨t, d⟩ <;> rfl

/-! ### Character-list reasoning -/

theorem char_toNat_inj {a b : Char} (h : a.toNat = b.toNat) : a = b := by
  have h2 := congrArg Char.ofNat h
  rwa [Char.ofNat_toNat, Char.ofNat_toNat] at h2

/-- Splitting at a separator character determines both halves once the left
halves avoid the separator. -/
theorem noColon_colon_append_inj :
    ∀ (a b r1 r2 : List Char), ':' ∉ a → ':' ∉ b →
      a ++ ':' :: r1 = b ++ ':' :: r2 → a = b ∧ r1 = r2 := by
  intro a
  induction a with
  | nil =>
    intro b r1 r2 _ hb h
    cases b with
    | nil => simpa using h
    | cons c bs =>
      simp only [List.nil_append, List.cons_append, List.cons.injEq] at h
      obtain ⟨hc, -⟩ := h
      subst hc
      simp at hb
  | cons c as ih =>
    intro b r1 r2 ha hb h
    cases b with
    | nil =>
      simp only [List.cons_append, List.nil_append, List.cons.injEq] at h
      obtain ⟨hc, -⟩ := h
      subst hc
      simp at ha
    | cons c' bs =>
      simp only [List.cons_append, List.cons.injEq] at h
      obtain ⟨hc, hrest⟩ := h
      have ha' : ':' ∉ as := fun hm => ha (List.mem_cons_of_mem _ hm)
      have hb' : ':' ∉ bs := fun hm => hb (List.mem_cons_of_mem _ hm)
      obtain ⟨h1, h2⟩ := ih bs r1 r2 ha' hb' hrest
      exact ⟨by rw [hc, h1], h2⟩

/-- Prefix form of the splitting lemma. -/
theorem noColon_colon_pre_eq (a b r : List Char) (ha : ':' ∉ a) (hb : ':' ∉ b)
    (h : (a ++ [':']) <+: (b ++ ':' :: r)) : a = b := by
  obtain ⟨t, ht⟩ := h
  rw [List.append_assoc] at ht
  exact (noColon_colon_append_inj a b t r ha hb (by simpa using ht)).1

/-- Matching at the last separator: the right halves avoid the separator. -/
theorem noColon_colon_last_inj (x1 x2 t1 t2 : List Char) (h1 : ':' ∉ t1) (h2 : ':' ∉ t2)
    (h : x1 ++ ':' :: t1 = x2 ++ ':' :: t2) : x1 = x2 ∧ t1 = t2 := by
  have hrev : t1.reverse ++ ':' :: x1.reverse = t2.reverse ++ ':' :: x2.reverse := by
    have h3 := congrArg List.reverse h
    simpa [List.reverse_append] using h3
  obtain ⟨ha, hb⟩ := noColon_colon_append_inj _ _ _ _ (by simpa using h1) (by simpa using h2) hrev
  constructor
  · have h4 := congrArg List.reverse hb
    simpa using h4
  · have h4 := congrArg List.reverse ha
    simpa using h4

/-! ### Decimal representation: `Nat.repr` is injective and colon-free -/

theorem toDigitsCore_acc (fuel : Nat) :
    ∀ (n : Nat) (acc : List Char),
      Nat.toDigitsCore 10 fuel n acc = Nat.toDigitsCore 10 fuel n [] ++ acc := by
  induction fuel with
  | zero => intro n acc; simp [Nat.toDigitsCore]
  | succ f ih =>
    intro n acc
    simp only [Nat.toDigitsCore]
    by_cases h : n / 10 = 0
    · simp [h]
    · rw [if_neg h, if_neg h, ih (n / 10) (Nat.digitChar (n % 10) :: acc),
        ih (n / 10) [Nat.digitChar (n % 10)]]
      simp

theorem toDigitsCore_fuel :
    ∀ (n f1 f2 : Nat), n < f1 → n < f2 →
      Nat.toDigitsCore 10 f1 n [] = Nat.toDigitsCore 10 f2 n [] := by
  intro n
  induction n using Nat.strong_induction_on with
  | _ n ih =>
    intro f1 f2 h1 h2
    obtain ⟨g1, rfl⟩ : ∃ g1, f1 = g1 + 1 := ⟨f1 - 1, by omega⟩
    obtain ⟨g2, rfl⟩ : ∃ g2, f2 = g2 + 1 := ⟨f2 - 1, by omega⟩
    simp only [Nat.toDigitsCore]
    by_cases h : n / 10 = 0
    · rw [if_pos h, if_pos h]
    · rw [if_neg h, if_neg h, toDigitsCore_acc g1, toDigitsCore_acc g2,
        ih (n / 10) (by omega) g1 g2 (by omega) (by omega)]

theorem toDigits_ten_lt (n : Nat) (h : n < 10) : Nat.toDigits 10 n = [Nat.digitChar n] := by
  unfold Nat.toDigits
  simp only [Nat.toDigitsCore]
  rw [if_pos (by omega), Nat.mod_eq_of_lt h]

theorem toDigits_ten_ge (n : Nat) (h : 10 ≤ n) :
    Nat.toDigits 10 n = Nat.toDigits 10 (n / 10) ++ [Nat.digitChar (n % 10)] := by
  unfold Nat.toDigits
  have step : Nat.toDigitsCore 10 (n + 1) n [] =
      Nat.toDigitsCore 10 n (n / 10) [Nat.digitChar (n % 10)] := by
    simp only [Nat.toDigitsCore]
    rw [if_neg (by omega)]
  rw [step, toDigitsCore_acc, toDigitsCore_fuel (n / 10) n (n / 10 + 1) (by omega) (by omega)]

theorem digitChar_isDigit (d : Nat) (h : d < 10) : (Nat.digitChar d).isDigit = true := by
  interval_cases d <;> decide

theorem digitChar_val (d : Nat) (h : d < 10) : (Nat.digitChar d).toNat - 48 = d := by
  interval_cases d <;> decide

theorem toDigits_all_digit (n : Nat) : ∀ c ∈ Nat.toDigits 10 n, c.isDigit = true := by
  induction n using Nat.strong_induction_on with
  | _ n ih =>
    by_cases h : n < 10
    · rw [toDigits_ten_lt n h]
      intro c hc
      simp only [List.mem_singleton] at hc
      subst hc
      exact digitChar_isDigit n h
    · rw [toDigits_ten_ge n (by omega)]
      intro c hc
      rcases List.mem_append.mp hc with hc | hc
      · exact ih (n / 10) (by omega) c hc
      · simp only [List.mem_singleton] at hc
        subst hc
        exact digitChar_isDigit _ (Nat.mod_lt _ (by omega))

theorem digitsVal_toDigits (n : Nat) : digitsVal (Nat.toDigits 10 n) = n := by
  induction n using Nat.strong_induction_on with
  | _ n ih =>
    by_cases h : n < 10
    · rw [toDigits_ten_lt n h]
      simp [digitsVal, digitChar_val n h]
    · rw [toDigits_ten_ge n (by omega)]
      unfold digitsVal
      rw [List.foldl_append]
      have h2 := ih (n / 10) (by omega)
      unfold digitsVal at h2
      rw [h2]
      simp only [List.foldl_cons, List.foldl_nil]
      rw [digitChar_val _ (Nat.mod_lt _ (by omega))]
      omega

theorem natRepr_data (n : Nat) : (Nat.repr n).data = Nat.toDigits 10 n := rfl

theorem natRepr_inj (m n : Nat) (h : Nat.repr m = Nat.repr n) : m = n := by
  have h2 : Nat.toDigits 10 m = Nat.toDigits 10 n := by
    rw [← natRepr_data, ← natRepr_data, h]
  rw [← digitsVal_toDigits m, ← digitsVal_toDigits n, h2]

theorem natRepr_no_colon (n : Nat) : ':' ∉ (Nat.repr n).data := by
  rw [natRepr_data]
  intro hm
  have h2 := toDigits_all_digit n ':' hm
  exact absurd h2 (by decide)

/-! ### `Char.toLower` cannot produce a colon -/

theorem char_toNat_ofNat_valid (m : Nat) (h : m.isValidChar) : (Char.ofNat m).toNat = m := by
  unfold Char.ofNat
  rw [dif_pos h]
  rfl

theorem toLower_eq_colon {c : Char} (h : c.toLower = ':') : c = ':' := by
  have h' : (if c.toNat ≥ 65 ∧ c.toNat ≤ 90 then Char.ofNat (c.toNat + 32) else c) = ':' := h
  split at h'
  · next hc =>
    have hv : (c.toNat + 32).isValidChar := Or.inl (by omega)
    have h2 := congrArg Char.toNat h'
    rw [char_toNat_ofNat_valid _ hv] at h2
    have h58 : Char.toNat ':' = 58 := by decide
    rw [h58] at h2
    omega
  · exact h'

theorem pyLower_no_colon (q : String) (h : ':' ∉ q.data) : ':' ∉ (pyLower q).data := by
  simp only [pyLower]
  intro hm
  rcases List.mem_map.mp hm with ⟨c, hc, hlc⟩
  rw [toLower_eq_colon hlc] at hc
  exact h hc

theorem str_ext : ∀ {s t : String}, s.data = t.data → s = t
  | ⟨_⟩, ⟨_⟩, rfl => rfl

/-! ### Key shapes -/

theorem getKey_nil_data (kt c : String) :
    (getKey kt c []).data = "feedback_docs:".data ++ (c.data ++ ':' :: kt.data) := by
  simp [getKey, List.append_assoc]

theorem getKey_pair_data (kt c k1 v1 k2 v2 : String)
    (h : keyLe k1.data k2.data = false) :
    (getKey kt c [(k1, v1), (k2, v2)]).data =
      "feedback_docs:".data ++ (c.data ++ ':' ::
        (kt.data ++ ':' :: (k2.data ++ '=' :: (v2.data ++ ':' :: (k1.data ++ '=' :: v1.data))))) := by
  simp [getKey, sortParams, insertParam, h, joinParams, List.append_assoc]

theorem pageKey_data (c : String) (p l : Nat) :
    (getKey "page" c [("page", Nat.repr p), ("limit", Nat.repr l)]).data =
      "feedback_docs:".data ++ (c.data ++ ':' :: ("page".data ++ ':' ::
        ("limit".data ++ '=' :: ((Nat.repr l).data ++ ':' ::
          ("page".data ++ '=' :: (Nat.repr p).data))))) :=
  getKey_pair_data "page" c "page" (Nat.repr p) "limit" (Nat.repr l) (by decide)

theorem searchKey_data (c q f : String) :
    (getKey "search" c [("query", pyLower q), ("field", f)]).data =
      "feedback_docs:".data ++ (c.data ++ ':' :: ("search".data ++ ':' ::
        ("field".data ++ '=' :: (f.data ++ ':' ::
          ("query".data ++ '=' :: (pyLower q).data))))) :=
  getKey_pair_data "search" c "query" (pyLower q) "field" f (by decide)

/-! ### Key injectivity and separation -/

theorem natRepr_data_inj (m n : Nat) (h : (Nat.repr m).data = (Nat.repr n).data) : m = n := by
  have h2 : Nat.toDigits 10 m = Nat.toDigits 10 n := by
    rw [← natRepr_data, ← natRepr_data, h]
  rw [← digitsVal_toDigits m, ← digitsVal_toDigits n, h2]

theorem pageKey_inj_same {c : String} {p1 l1 p2 l2 : Nat}
    (h : getKey "page" c [("page", Nat.repr p1), ("limit", Nat.repr l1)] =
      getKey "page" c [("page", Nat.repr p2), ("limit", Nat.repr l2)]) :
    p1 = p2 ∧ l1 = l2 := by
  have hd := congrArg String.data h
  rw [pageKey_data, pageKey_data] at hd
  simp only [List.append_right_inj, List.cons.injEq, true_and] at hd
  obtain ⟨hl, hrest⟩ := noColon_colon_append_inj _ _ _ _
    (natRepr_no_colon l1) (natRepr_no_colon l2) hd
  simp only [List.append_right_inj, List.cons.injEq, true_and] at hrest
  exact ⟨natRepr_data_inj _ _ hrest, natRepr_data_inj _ _ hl⟩

theorem pageKey_inj {c1 c2 : String} {p1 l1 p2 l2 : Nat}
    (hc1 : ':' ∉ c1.data) (hc2 : ':' ∉ c2.data)
    (h : getKey "page" c1 [("page", Nat.repr p1), ("limit", Nat.repr l1)] =
      getKey "page" c2 [("page", Nat.repr p2), ("limit", Nat.repr l2)]) :
    c1 = c2 ∧ p1 = p2 ∧ l1 = l2 := by
  have hd := congrArg String.data h
  rw [pageKey_data, pageKey_data] at hd
  simp only [List.append_right_inj] at hd
  obtain ⟨hcc, hrest⟩ := noColon_colon_append_inj _ _ _ _ hc1 hc2 hd
  simp only [List.append_right_inj, List.cons.injEq, true_and] at hrest
  obtain ⟨hl, hrest2⟩ := noColon_colon_append_inj _ _ _ _
    (natRepr_no_colon l1) (natRepr_no_colon l2) hrest
  simp only [List.append_right_inj, List.cons.injEq, true_and] at hrest2
  exact ⟨str_ext hcc, natRepr_data_inj _ _ hrest2, natRepr_data_inj _ _ hl⟩

theorem allKey_inj {c1 c2 : String} (hc1 : ':' ∉ c1.data) (hc2 : ':' ∉ c2.data)
    (h : getKey "all" c1 [] = getKey "all" c2 []) : c1 = c2 := by
  have hd := congrArg String.data h
  rw [getKey_nil_data, getKey_nil_data] at hd
  simp only [List.append_right_inj] at hd
  exact str_ext (noColon_colon_append_inj _ _ _ _ hc1 hc2 hd).1

theorem searchKey_inj {c1 c2 q1 q2 f1 f2 : String}
    (hc1 : ':' ∉ c1.data) (hc2 : ':' ∉ c2.data)
    (hq1 : ':' ∉ q1.data) (hq2 : ':' ∉ q2.data)
    (h : getKey "search" c1 [("query", pyLower q1), ("field", f1)] =
      getKey "search" c2 [("query", pyLower q2), ("field", f2)]) :
    c1 = c2 ∧ pyLower q1 = pyLower q2 ∧ f1 = f2 := by
  have hd := congrArg String.data h
  rw [searchKey_data, searchKey_data] at hd
  simp only [List.append_right_inj] at hd
  obtain ⟨hcc, hrest⟩ := noColon_colon_append_inj _ _ _ _ hc1 hc2 hd
  simp only [List.append_right_inj, List.cons.injEq, true_and] at hrest
  have hT1 : ':' ∉ ("query".data ++ '=' :: (pyLower q1).data) := by
    intro hm
    rcases List.mem_append.mp hm with hm | hm
    · revert hm; decide
    · rcases List.mem_cons.mp hm with hm | hm
      · simp at hm
      · exact pyLower_no_colon q1 hq1 hm
  have hT2 : ':' ∉ ("query".data ++ '=' :: (pyLower q2).data) := by
    intro hm
    rcases List.mem_append.mp hm with hm | hm
    · revert hm; decide
    · rcases List.mem_cons.mp hm with hm | hm
      · simp at hm
      · exact pyLower_no_colon q2 hq2 hm
  obtain ⟨hff, hqq⟩ := noColon_colon_last_inj _ _ _ _ hT1 hT2 hrest
  simp only [List.append_right_inj, List.cons.injEq, true_and] at hqq
  exact ⟨str_ext hcc, str_ext hqq, str_ext hff⟩

theorem pageKey_ne_allKey_same (c : String) (p l : Nat) :
    getKey "page" c [("page", Nat.repr p), ("limit", Nat.repr l)] ≠ getKey "all" c [] := by
  intro h
  have hd := congrArg String.data h
  rw [pageKey_data, getKey_nil_data] at hd
  simp only [List.append_right_inj, List.cons.injEq, true_and] at hd
  simp at hd

theorem pageKey_ne_allKey {c1 c2 : String} (p l : Nat)
    (hc1 : ':' ∉ c1.data) (hc2 : ':' ∉ c2.data) :
    getKey "page" c1 [("page", Nat.repr p), ("limit", Nat.repr l)] ≠ getKey "all" c2 [] := by
  intro h
  have hd := congrArg String.data h
  rw [pageKey_data, getKey_nil_data] at hd
  simp only [List.append_right_inj] at hd
  have hrest := (noColon_colon_append_inj _ _ _ _ hc1 hc2 hd).2
  simp at hrest

theorem pageKey_ne_searchKey {c1 c2 : String} (p l : Nat) (q f : String)
    (hc1 : ':' ∉ c1.data) (hc2 : ':' ∉ c2.data) :
    getKey "page" c1 [("page", Nat.repr p), ("limit", Nat.repr l)] ≠
      getKey "search" c2 [("query", pyLower q), ("field", f)] := by
  intro h
  have hd := congrArg String.data h
  rw [pageKey_data, searchKey_data] at hd
  simp only [List.append_right_inj] at hd
  have hrest := (noColon_colon_append_inj _ _ _ _ hc1 hc2 hd).2
  simp at hrest

theorem allKey_ne_searchKey {c1 c2 : String} (q f : String)
    (hc1 : ':' ∉ c1.data) (hc2 : ':' ∉ c2.data) :
    getKey "all" c1 [] ≠ getKey "search" c2 [("query", pyLower q), ("field", f)] := by
  intro h
  have hd := congrArg String.data h
  rw [getKey_nil_data, searchKey_data] at hd
  simp only [List.append_right_inj] at hd
  have hrest := (noColon_colon_append_inj _ _ _ _ hc1 hc2 hd).2
  simp at hrest

/-! ### Prefix matching against keys -/

theorem preMatch_page_same (c : String) (p l : Nat) :
    preMatch ("feedback_docs:" ++ c ++ ":")
      (getKey "page" c [("page", Nat.repr p), ("limit", Nat.repr l)]) = true := by
  unfold preMatch
  simp only [ List.isPrefixOf_iff_prefix]
  rw [pageKey_data]
  simp [List.append_assoc]

theorem preMatch_page_other {A B : String} (p l : Nat)
    (hA : ':' ∉ A.data) (hB : ':' ∉ B.data) (hAB : A ≠ B) :
    preMatch ("feedback_docs:" ++ A ++ ":")
      (getKey "page" B [("page", Nat.repr p), ("limit", Nat.repr l)]) = false := by
  rcases hM : preMatch ("feedback_docs:" ++ A ++ ":")
      (getKey "page" B [("page", Nat.repr p), ("limit", Nat.repr l)]) with _ | _
  · rfl
  · exfalso
    unfold preMatch at hM
    rw [ List.isPrefixOf_iff_prefix] at hM
    rw [pageKey_data] at hM
    simp only [String.data_append, List.append_assoc] at hM
    rw [List.prefix_append_right_inj] at hM
    have h2 := noColon_colon_pre_eq A.data B.data _ hA hB hM
    exact hAB (str_ext h2)

theorem getPageCache_invalidate (s : CacheService) (A c : String) (p l : Nat)
    (hen : s.cache_enabled = true) :
    (s.invalidate_container_cache A).get_page_cache c p l =
      if preMatch ("feedback_docs:" ++ A ++ ":")
          (getKey "page" c [("page", Nat.repr p), ("limit", Nat.repr l)])
      then none else s.get_page_cache c p l := by
  rw [get_page_cache_eq _ _ _ _ (by simp [hen]), invalidate_container_store s A hen,
    storeGet_filter, get_page_cache_eq s _ _ _ hen]
  split <;> rfl

/-! ### Operation interaction lemmas -/

theorem enabled_of_set_guard {s : CacheService} {d : List Record}
    (hcond : ¬(!s.cache_enabled || d.isEmpty) = true) : s.cache_enabled = true := by
  rcases hb : s.cache_enabled with _ | _
  · rw [hb] at hcond
    simp at hcond
  · rfl

theorem get_page_set_page_self (s : CacheService) (c : String) (p : Nat) (d : List Record)
    (l : Nat) (hen : s.cache_enabled = true) (hd : d ≠ []) :
    (s.set_page_cache c p d l).get_page_cache c p l = some d := by
  rw [set_page_cache_eq s c p d l hen hd]
  simp only [CacheService.get_page_cache, hen, Bool.not_true, Bool.false_eq_true, if_false,
    storeGet_set_self]

theorem get_page_set_page_of_ne_key (s : CacheService) (c1 : String) (p l : Nat)
    (c2 : String) (q m : Nat) (d : List Record)
    (hkey : getKey "page" c1 [("page", Nat.repr p), ("limit", Nat.repr l)] ≠
      getKey "page" c2 [("page", Nat.repr q), ("limit", Nat.repr m)]) :
    (s.set_page_cache c2 q d m).get_page_cache c1 p l = s.get_page_cache c1 p l := by
  unfold CacheService.set_page_cache
  split
  · rfl
  · next hcond =>
    have hen := enabled_of_set_guard hcond
    simp only [CacheService.get_page_cache, hen, Bool.not_true, Bool.false_eq_true, if_false]
    rw [storeGet_set_other _ _ _ _ _ hkey]

theorem get_page_set_page_ne (s : CacheService) (c : String) (p l q m : Nat) (d : List Record)
    (hpq : p ≠ q) :
    (s.set_page_cache c q d m).get_page_cache c p l = s.get_page_cache c p l :=
  get_page_set_page_of_ne_key s c p l c q m d (fun h => hpq (pageKey_inj_same h).1)

theorem get_all_set_page (s : CacheService) (c c' : String) (q m : Nat) (d : List Record)
    (hkey : getKey "all" c [] ≠ getKey "page" c' [("page", Nat.repr q), ("limit", Nat.repr m)]) :
    (s.set_page_cache c' q d m).get_all_cache c = s.get_all_cache c := by
  unfold CacheService.set_page_cache
  split
  · rfl
  · next hcond =>
    have hen := enabled_of_set_guard hcond
    simp only [CacheService.get_all_cache, hen, Bool.not_true, Bool.false_eq_true, if_false]
    rw [storeGet_set_other _ _ _ _ _ hkey]

theorem get_page_set_all (s : CacheService) (c : String) (p l : Nat) (d : List Record) :
    (s.set_all_cache c d).get_page_cache c p l = s.get_page_cache c p l := by
  unfold CacheService.set_all_cache
  split
  · rfl
  · next hcond =>
    have hen := enabled_of_set_guard hcond
    simp only [CacheService.get_page_cache, hen, Bool.not_true, Bool.false_eq_true, if_false]
    rw [storeGet_set_other _ _ _ _ _ (pageKey_ne_allKey_same c p l)]

theorem get_all_set_all_self (s : CacheService) (c : String) (d : List Record)
    (hen : s.cache_enabled = true) (hd : d ≠ []) :
    (s.set_all_cache c d).get_all_cache c = some d := by
  rw [set_all_cache_eq s c d hen hd]
  simp only [CacheService.get_all_cache, hen, Bool.not_true, Bool.false_eq_true, if_false,
    storeGet_set_self]

/-! ### Warm-loop lemmas -/

theorem warmPagesLoop_enabled (c : String) (docs : List Record) (ps : Nat) :
    ∀ (s : CacheService) (pages : List Nat),
      (warmPagesLoop c docs ps s pages).cache_enabled = s.cache_enabled := by
  intro s pages
  induction pages generalizing s with
  | nil => rfl
  | cons q rest ih =>
    simp only [warmPagesLoop]
    rw [ih]
    split <;> simp

theorem warmPagesLoop_get_not_mem (c : String) (docs : List Record) (ps : Nat) :
    ∀ (s : CacheService) (pages : List Nat) (p l : Nat), p ∉ pages →
      (warmPagesLoop c docs ps s pages).get_page_cache c p l = s.get_page_cache c p l := by
  intro s pages
  induction pages generalizing s with
  | nil => intro p l _; rfl
  | cons q rest ih =>
    intro p l hp
    simp only [warmPagesLoop]
    rw [ih _ p l (fun h => hp (List.mem_cons_of_mem q h))]
    split
    · rfl
    · exact get_page_set_page_ne s c p l q ps _
        (fun h => hp (h ▸ List.mem_cons_self q rest))

theorem warmPagesLoop_get_all (c : String) (docs : List Record) (ps : Nat) :
    ∀ (s : CacheService) (pages : List Nat),
      (warmPagesLoop c docs ps s pages).get_all_cache c = s.get_all_cache c := by
  intro s pages
  induction pages generalizing s with
  | nil => rfl
  | cons q rest ih =>
    simp only [warmPagesLoop]
    rw [ih]
    split
    · rfl
    · exact get_all_set_page _ c c q ps _
        (fun h => pageKey_ne_allKey_same c q ps h.symm)

theorem warmPagesLoop_get_mem (c : String) (docs : List Record) (ps : Nat) :
    ∀ (s : CacheService) (pages : List Nat) (p : Nat),
      s.cache_enabled = true → pages.Nodup → p ∈ pages →
      ((docs.drop ((p - 1) * ps)).take ps) ≠ [] →
      (warmPagesLoop c docs ps s pages).get_page_cache c p ps =
        some ((docs.drop ((p - 1) * ps)).take ps) := by
  intro s pages
  induction pages generalizing s with
  | nil => intro p _ _ hp _; cases hp
  | cons q rest ih =>
    intro p hen hnd hp hne
    simp only [warmPagesLoop]
    rcases List.mem_cons.mp hp with rfl | hp'
    · rw [warmPagesLoop_get_not_mem c docs ps _ rest p ps (List.nodup_cons.mp hnd).1]
      rw [if_neg (fun hie => hne (List.isEmpty_iff.mp hie))]
      exact get_page_set_page_self s c p _ ps hen hne
    · refine ih _ p ?_ (List.nodup_cons.mp hnd).2 hp' hne
      split
      · exact hen
      · simpa using hen

/-! ### Unfolding `warm_cache_for_container` on an enabled service -/

theorem warm_enabled (s : CacheService) (c : String) (docs : List Record) :
    (s.warm_cache_for_container c docs).cache_enabled = s.cache_enabled := by
  simp only [CacheService.warm_cache_for_container]
  split
  · rfl
  · rw [warmPagesLoop_enabled]
    split
    · split
      · simp
      · rfl
    · split
      · simp
      · rfl

theorem warm_eq (s : CacheService) (c : String) (docs : List Record)
    (hen : s.cache_enabled = true) (hd : docs ≠ []) :
    s.warm_cache_for_container c docs =
      warmPagesLoop c (docs.take 1000) 20 (s.set_all_cache c (docs.take 1000))
        (List.range' 1 (min 3 (((docs.take 1000).length + 19) / 20))) := by
  simp only [CacheService.warm_cache_for_container, hen, Bool.not_true, Bool.false_or]
  rw [if_neg (by simpa [List.isEmpty_iff] using hd)]
  have hcap : (if docs.length > 1000 then docs.take 1000 else docs) = docs.take 1000 := by
    split
    · rfl
    · next hle => exact (List.take_of_length_le (by omega)).symm
  rw [hcap]
  rw [if_pos (by rw [List.length_take]; omega)]
  norm_num

/-! ### The parameter sort is deterministic under permutation -/

theorem keyLe_total (a : List Char) : ∀ b, keyLe a b = true ∨ keyLe b a = true := by
  induction a with
  | nil => intro b; exact Or.inl rfl
  | cons x as ih =>
    intro b
    cases b with
    | nil => exact Or.inr rfl
    | cons y bs =>
      simp only [keyLe]
      by_cases h1 : x.toNat < y.toNat
      · left
        rw [if_pos h1]
      · by_cases h2 : y.toNat < x.toNat
        · right
          rw [if_pos h2]
        · rw [if_neg h1, if_neg h2, if_neg h2, if_neg h1]
          exact ih bs

theorem keyLe_trans (a : List Char) : ∀ b c, keyLe a b = true → keyLe b c = true →
    keyLe a c = true := by
  induction a with
  | nil => intro b c _ _; rfl
  | cons x as ih =>
    intro b c hab hbc
    cases b with
    | nil => simp [keyLe] at hab
    | cons y bs =>
      cases c with
      | nil => simp [keyLe] at hbc
      | cons z cs =>
        simp only [keyLe] at hab hbc ⊢
        by_cases h1 : x.toNat < y.toNat
        · by_cases h2 : y.toNat < z.toNat
          · rw [if_pos (by omega)]
          · rw [if_neg h2] at hbc
            by_cases h2' : z.toNat < y.toNat
            · rw [if_pos h2'] at hbc
              exact absurd hbc (by simp)
            · rw [if_pos (by omega)]
        · rw [if_neg h1] at hab
          by_cases h1' : y.toNat < x.toNat
          · rw [if_pos h1'] at hab
            exact absurd hab (by simp)
          · rw [if_neg h1'] at hab
            by_cases h2 : y.toNat < z.toNat
            · rw [if_pos (by omega)]
            · rw [if_neg h2] at hbc
              by_cases h2' : z.toNat < y.toNat
              · rw [if_pos h2'] at hbc
                exact absurd hbc (by simp)
              · rw [if_neg h2'] at hbc
                rw [if_neg (by omega), if_neg (by omega)]
                exact ih bs cs hab hbc

theorem keyLe_antisymm (a : List Char) : ∀ b, keyLe a b = true → keyLe b a = true →
    a = b := by
  induction a with
  | nil =>
    intro b _ h2
    cases b with
    | nil => rfl
    | cons y bs => simp [keyLe] at h2
  | cons x as ih =>
    intro b h1 h2
    cases b with
    | nil => simp [keyLe] at h1
    | cons y bs =>
      simp only [keyLe] at h1 h2
      by_cases hxy : x.toNat < y.toNat
      · rw [if_neg (by omega), if_pos hxy] at h2
        exact absurd h2 (by simp)
      · by_cases hyx : y.toNat < x.toNat
        · rw [if_neg hxy, if_pos hyx] at h1
          exact absurd h1 (by simp)
        · rw [if_neg hxy, if_neg hyx] at h1
          rw [if_neg hyx, if_neg hxy] at h2
          rw [char_toNat_inj (show x.toNat = y.toNat by omega), ih bs h1 h2]

theorem insertParam_perm (p : String × String) : ∀ (l : List (String × String)),
    (insertParam p l).Perm (p :: l) := by
  intro l
  induction l with
  | nil => exact List.Perm.refl _
  | cons q rest ih =>
    simp only [insertParam]
    split
    · exact List.Perm.refl _
    · exact (ih.cons q).trans (List.Perm.swap p q rest)

theorem sortParams_perm : ∀ (l : List (String × String)), (sortParams l).Perm l := by
  intro l
  induction l with
  | nil => exact List.Perm.refl _
  | cons p rest ih => exact (insertParam_perm p (sortParams rest)).trans (ih.cons p)

theorem insertParam_pairwise (p : String × String) :
    ∀ (l : List (String × String)), l.Pairwise paramLe →
      (insertParam p l).Pairwise paramLe := by
  intro l
  induction l with
  | nil => intro _; exact List.pairwise_singleton _ _
  | cons q rest ih =>
    intro hl
    simp only [insertParam]
    split
    · next hle =>
      refine List.Pairwise.cons ?_ hl
      intro x hx
      rcases List.mem_cons.mp hx with rfl | hx
      · exact hle
      · exact keyLe_trans _ _ _ hle ((List.pairwise_cons.mp hl).1 x hx)
    · next hgt =>
      have hq : keyLe p.1.data q.1.data = false := by
        rcases h : keyLe p.1.data q.1.data with _ | _
        · rfl
        · exact absurd h hgt
      have hqp : paramLe q p := by
        rcases keyLe_total p.1.data q.1.data with h | h
        · rw [hq] at h
          exact absurd h (by simp)
        · exact h
      obtain ⟨hqr, hrest⟩ := List.pairwise_cons.mp hl
      refine List.Pairwise.cons ?_ (ih hrest)
      intro x hx
      have hx' := (insertParam_perm p rest).mem_iff.mp hx
      rcases List.mem_cons.mp hx' with rfl | hx''
      · exact hqp
      · exact hqr x hx''

theorem sortParams_pairwise : ∀ (l : List (String × String)),
    (sortParams l).Pairwise paramLe := by
  intro l
  induction l with
  | nil => exact List.Pairwise.nil
  | cons p rest ih => exact insertParam_pairwise p (sortParams rest) ih

theorem sortParams_eq_of_perm (l1 l2 : List (String × String)) (hp : l1.Perm l2)
    (hnd : (l1.map Prod.fst).Nodup) : sortParams l1 = sortParams l2 := by
  have hperm : (sortParams l1).Perm (sortParams l2) :=
    (sortParams_perm l1).trans (hp.trans (sortParams_perm l2).symm)
  have hnd1 : ((sortParams l1).map Prod.fst).Nodup :=
    (List.Perm.nodup_iff ((sortParams_perm l1).map Prod.fst)).mpr hnd
  have hnd2 : ((sortParams l2).map Prod.fst).Nodup :=
    (List.Perm.nodup_iff ((sortParams_perm l2).map Prod.fst)).mpr
      ((List.Perm.nodup_iff (hp.map Prod.fst)).mp hnd)
  have hs1 : (sortParams l1).Pairwise (fun a b => paramLe a b ∧ a.1 ≠ b.1) :=
    (sortParams_pairwise l1).and (List.pairwise_map.mp hnd1)
  have hs2 : (sortParams l2).Pairwise (fun a b => paramLe a b ∧ a.1 ≠ b.1) :=
    (sortParams_pairwise l2).and (List.pairwise_map.mp hnd2)
  exact @List.eq_of_perm_of_sorted _ (fun a b => paramLe a b ∧ a.1 ≠ b.1)
    ⟨fun a b h1 h2 => absurd (str_ext (keyLe_antisymm _ _ h1.1 h2.1)) h1.2⟩
    _ _ hperm hs1 hs2

/-! ### Key lists through the operations (for stats computations) -/

theorem storeSet_keys (st : Store) (k : String) (ttl : Nat) (v : List Record) :
    (storeSet st k ttl v).map (fun e => e.1) =
      k :: ((st.map (fun e => e.1)).filter (fun x => !(x == k))) := by
  unfold storeSet
  simp only [List.map_cons, List.cons.injEq, true_and]
  induction st with
  | nil => rfl
  | cons e rest ih =>
    rcases he : (e.1 == k) with _ | _
    · simp only [List.filter_cons, List.map_cons, he, Bool.not_false, if_true, List.cons.injEq,
        true_and]
      exact ih
    · simp only [List.filter_cons, List.map_cons, he, Bool.not_true, Bool.false_eq_true,
        if_false]
      exact ih

theorem keys_set_page (s : CacheService) (c : String) (p : Nat) (d : List Record) (l : Nat)
    (hen : s.cache_enabled = true) (hd : d ≠ []) :
    (s.set_page_cache c p d l).store.map (fun e => e.1) =
      getKey "page" c [("page", Nat.repr p), ("limit", Nat.repr l)] ::
        ((s.store.map (fun e => e.1)).filter
          (fun x => !(x == getKey "page" c [("page", Nat.repr p), ("limit", Nat.repr l)]))) := by
  rw [set_page_cache_eq s c p d l hen hd]
  exact storeSet_keys s.store _ _ _

theorem keys_set_all (s : CacheService) (c : String) (d : List Record)
    (hen : s.cache_enabled = true) (hd : d ≠ []) :
    (s.set_all_cache c d).store.map (fun e => e.1) =
      getKey "all" c [] ::
        ((s.store.map (fun e => e.1)).filter (fun x => !(x == getKey "all" c []))) := by
  rw [set_all_cache_eq s c d hen hd]
  exact storeSet_keys s.store _ _ _

theorem get_cache_stats_eq (s : CacheService) (hen : s.cache_enabled = true) :
    s.get_cache_stats =
      CacheStats.stats (globKeys s.store "feedback_docs:").length
        (groupKeysByContainer (globKeys s.store "feedback_docs:")) := by
  simp only [CacheService.get_cache_stats, hen, Bool.not_true, Bool.false_eq_true, if_false]

/-! ## Claim theorems -/

/-- C1: a Coordinator constructed with no configured/reachable store is
disabled: every get (page, all, search) returns absent, every set,
invalidate and warm operation is a silent no-op leaving the service (and its
store) untouched, and `get_cache_stats` returns the bare disabled dict
without scanning.  All operations are total, so none raises. -/
theorem disabled_cache_transparency :
    ∀ (c q f : String) (p l : Nat) (d docs : List Record),
      (CacheService.init none).get_page_cache c p l = none ∧
      (CacheService.init none).get_all_cache c = none ∧
      (CacheService.init none).get_search_cache c q f = none ∧
      (CacheService.init none).set_page_cache c p d l = CacheService.init none ∧
      (CacheService.init none).set_all_cache c d = CacheService.init none ∧
      (CacheService.init none).set_search_cache c q f d = CacheService.init none ∧
      (CacheService.init none).invalidate_container_cache c = CacheService.init none ∧
      (CacheService.init none).invalidate_all_cache = CacheService.init none ∧
      (CacheService.init none).warm_cache_for_container c docs = CacheService.init none ∧
      (CacheService.init none).get_cache_stats = CacheStats.disabled := by
  intro c q f p l d docs
  exact ⟨rfl, rfl, rfl, rfl, rfl, rfl, rfl, rfl, rfl, rfl⟩

/-- C5: writing an empty record list through `set_page_cache` (or
`set_all_cache`) leaves the service state unchanged, for every state,
container, page and limit; in particular on a previously empty cache
setPage(c,1,[],20) followed by getPage(c,1,20) returns absent. -/
theorem empty_write_guard :
    ∀ (s : CacheService) (c : String) (p l : Nat) (u : String),
      s.set_page_cache c p [] l = s ∧
      s.set_all_cache c [] = s ∧
      ((CacheService.init (some u)).set_page_cache c 1 [] 20).get_page_cache c 1 20 = none := by
  intro s c p l u
  refine ⟨?_, ?_, rfl⟩
  · simp [CacheService.set_page_cache]
  · simp [CacheService.set_all_cache]

/-- C4 as stated is false: `set_search_cache` has no empty-write guard.  On a
fresh enabled service, setSearch(c,q,f,[]) writes an entry (the store
changes) and the subsequent getSearch returns the cached empty list, not
absent. -/
theorem set_search_empty_counterexample :
    ((CacheService.init (some "u")).set_search_cache "c" "q" "f" []).get_search_cache
        "c" "q" "f" = some [] ∧
      ((CacheService.init (some "u")).set_search_cache "c" "q" "f" []).store ≠
        (CacheService.init (some "u")).store := by
  exact ⟨by decide, by decide⟩

/-- C4 amended: `set_search_cache`, unlike `set_page_cache`, has no empty-write
guard: on every enabled service, setSearch(container,query,field,[]) caches
the empty list, and the subsequent getSearch(container,query,field) returns
`some []` rather than absent. -/
theorem set_search_empty_cached :
    ∀ (s : CacheService) (c q f : String),
      s.cache_enabled = true →
      (s.set_search_cache c q f []).get_search_cache c q f = some [] := by
  intro s c q f hen
  rw [set_search_cache_eq s c q f [] hen]
  simp only [CacheService.get_search_cache, hen, Bool.not_true, Bool.false_eq_true, if_false,
    storeGet_set_self]

theorem set_search_empty_cached_witness :
    ((CacheService.init (some "u")).set_search_cache "c" "Q" "f" []).get_search_cache
      "c" "Q" "f" = some [] :=
  set_search_empty_cached (CacheService.init (some "u")) "c" "Q" "f" rfl

/-- C7: search-cache keys are case-insensitive in the query: whenever two
queries agree after case folding, the search key built for them is identical,
and a setSearch under one query is hit by a getSearch under the other. -/
theorem search_case_insensitive :
    ∀ (s : CacheService) (c q1 q2 f : String) (d : List Record),
      s.cache_enabled = true → pyLower q1 = pyLower q2 →
      (getKey "search" c [("query", pyLower q1), ("field", f)] =
        getKey "search" c [("query", pyLower q2), ("field", f)]) ∧
      (s.set_search_cache c q1 f d).get_search_cache c q2 f = some d := by
  intro s c q1 q2 f d hen hq
  constructor
  · rw [hq]
  · rw [set_search_cache_eq s c q1 f d hen]
    simp only [CacheService.get_search_cache, hen, Bool.not_true, Bool.false_eq_true, if_false]
    rw [hq, storeGet_set_self]

theorem search_case_insensitive_witness :
    ((CacheService.init (some "u")).set_search_cache "c" "Foo" "UserPrompt"
        [[("r", "1")]]).get_search_cache "c" "foo" "UserPrompt" = some [[("r", "1")]] :=
  (search_case_insensitive (CacheService.init (some "u")) "c" "Foo" "foo" "UserPrompt"
    [[("r", "1")]] rfl (by decide)).2

/-- C9: round-trip through the page cache is the identity on the stored
records, and a subsequent container invalidation makes the same read absent. -/
theorem page_roundtrip_then_invalidate :
    ∀ (s : CacheService) (c : String) (records : List Record),
      s.cache_enabled = true → records ≠ [] →
      ((s.set_page_cache c 1 records 20).get_page_cache c 1 20 = some records) ∧
      (((s.set_page_cache c 1 records 20).invalidate_container_cache c).get_page_cache
        c 1 20 = none) := by
  intro s c records hen hne
  constructor
  · exact get_page_set_page_self s c 1 records 20 hen hne
  · rw [getPageCache_invalidate _ c c 1 20 (by simpa using hen)]
    rw [if_pos (preMatch_page_same c 1 20)]

theorem page_roundtrip_then_invalidate_witness :
    ((CacheService.init (some "u")).set_page_cache "nba-official" 1
        (List.replicate 20 [("Id", "1")]) 20).get_page_cache "nba-official" 1 20 =
      some (List.replicate 20 [("Id", "1")]) :=
  (page_roundtrip_then_invalidate (CacheService.init (some "u")) "nba-official"
    (List.replicate 20 [("Id", "1")]) rfl (by simp)).1

/-- C8: `invalidate_container_cache A` deletes exactly the bindings whose key
carries the `feedback_docs:A:` prefix; invalidating a container with no
cached entries is a no-op that still succeeds; and in the two-container
scenario the other container's page entry survives while A's is gone. -/
theorem invalidation_scope :
    ∀ (s : CacheService) (A B : String) (dA dB : List Record) (k : String),
      s.cache_enabled = true →
      (storeGet (s.invalidate_container_cache A).store k =
        if preMatch ("feedback_docs:" ++ A ++ ":") k then none else storeGet s.store k) ∧
      (globKeys s.store ("feedback_docs:" ++ A ++ ":") = [] →
        s.invalidate_container_cache A = s) ∧
      (A ≠ B → ':' ∉ A.data → ':' ∉ B.data → dA ≠ [] → dB ≠ [] →
        (((s.set_page_cache A 1 dA 20).set_page_cache B 1 dB 20).invalidate_container_cache
            A).get_page_cache A 1 20 = none ∧
        (((s.set_page_cache A 1 dA 20).set_page_cache B 1 dB 20).invalidate_container_cache
            A).get_page_cache B 1 20 = some dB) := by
  intro s A B dA dB k hen
  refine ⟨?_, ?_, ?_⟩
  · rw [invalidate_container_store s A hen, storeGet_filter]
  · intro hGK
    simp only [CacheService.invalidate_container_cache, hen, Bool.not_true, Bool.false_eq_true,
      if_false, hGK, List.isEmpty_nil, if_true]
  · intro hAB hA hB hdA hdB
    have hen2 : ((s.set_page_cache A 1 dA 20).set_page_cache B 1 dB 20).cache_enabled = true :=
      by simpa using hen
    constructor
    · rw [getPageCache_invalidate _ A A 1 20 hen2, if_pos (preMatch_page_same A 1 20)]
    · rw [getPageCache_invalidate _ A B 1 20 hen2, preMatch_page_other 1 20 hA hB hAB]
      simp only [Bool.false_eq_true, if_false]
      exact get_page_set_page_self _ B 1 dB 20 (by simpa using hen) hdB

theorem invalidation_scope_witness :
    ((((CacheService.init (some "u")).set_page_cache "mlb" 1 [[("a", "1")]] 20).set_page_cache
        "nba-official" 1 [[("b", "2")]] 20).invalidate_container_cache
        "mlb").get_page_cache "nba-official" 1 20 = some [[("b", "2")]] :=
  ((invalidation_scope (CacheService.init (some "u")) "mlb" "nba-official" [[("a", "1")]]
      [[("b", "2")]] "x" rfl).2.2 (by decide) (by decide) (by decide) (by decide)
      (by decide)).2

/-- C6: the key builder emits `feedback_docs:<container>:<kind>` followed by
the `:k=v` segments sorted by parameter name, so permuting the keyword
arguments (whose names are distinct) never changes the key. -/
theorem key_build_deterministic :
    ∀ (kt c : String) (kw1 kw2 : List (String × String)) (ps ls : String),
      (kw1.Perm kw2 → (kw1.map Prod.fst).Nodup → getKey kt c kw1 = getKey kt c kw2) ∧
      (getKey kt c []).data = "feedback_docs:".data ++ (c.data ++ ':' :: kt.data) ∧
      (getKey kt c [("page", ps), ("limit", ls)]).data =
        "feedback_docs:".data ++ (c.data ++ ':' :: (kt.data ++ ':' ::
          ("limit".data ++ '=' :: (ls.data ++ ':' :: ("page".data ++ '=' :: ps.data))))) := by
  intro kt c kw1 kw2 ps ls
  refine ⟨?_, getKey_nil_data kt c, getKey_pair_data kt c "page" ps "limit" ls (by decide)⟩
  intro hp hnd
  cases kw1 with
  | nil =>
    have h2 : kw2 = [] := hp.symm.eq_nil
    rw [h2]
  | cons a t =>
    cases kw2 with
    | nil =>
      have h2 : a :: t = [] := hp.eq_nil
      simp at h2
    | cons b u =>
      simp only [getKey]
      rw [sortParams_eq_of_perm _ _ hp hnd]

theorem key_build_deterministic_witness :
    getKey "page" "c" [("page", "1"), ("limit", "20")] =
      getKey "page" "c" [("limit", "20"), ("page", "1")] :=
  (key_build_deterministic "page" "c" [("page", "1"), ("limit", "20")]
      [("limit", "20"), ("page", "1")] "1" "20").1
    (List.Perm.swap ("limit", "20") ("page", "1") []) (by decide)

/-- C2: `warm_cache_for_container` stores exactly the first min(n,1000)
records in the "all" entry and pages 1 through min(3, ceil(min(n,1000)/20))
as 20-record slices of that capped prefix; page keys outside that range are
untouched.  With 1500 input records the cap is 1000, exactly pages 1..3 are
written, each of length 20. -/
theorem warm_container_cap :
    ∀ (s : CacheService) (c : String) (docs : List Record),
      s.cache_enabled = true → docs ≠ [] →
      ((s.warm_cache_for_container c docs).get_all_cache c = some (docs.take 1000)) ∧
      (∀ p ∈ List.range' 1 (min 3 (((docs.take 1000).length + 19) / 20)),
        (s.warm_cache_for_container c docs).get_page_cache c p 20 =
          some (((docs.take 1000).drop ((p - 1) * 20)).take 20)) ∧
      (∀ p, p ∉ List.range' 1 (min 3 (((docs.take 1000).length + 19) / 20)) →
        (s.warm_cache_for_container c docs).get_page_cache c p 20 = s.get_page_cache c p 20) ∧
      (docs.length = 1500 →
        (docs.take 1000).length = 1000 ∧
        min 3 (((docs.take 1000).length + 19) / 20) = 3 ∧
        (∀ p ∈ List.range' 1 3,
          (((docs.take 1000).drop ((p - 1) * 20)).take 20).length = 20)) := by
  intro s c docs hen hd
  have htake : docs.take 1000 ≠ [] := by
    intro h
    rcases docs with _ | ⟨a, t⟩
    · exact hd rfl
    · simp at h
  rw [warm_eq s c docs hen hd]
  have hen1 : (s.set_all_cache c (docs.take 1000)).cache_enabled = true := by simpa using hen
  refine ⟨?_, ?_, ?_, ?_⟩
  · rw [warmPagesLoop_get_all]
    exact get_all_set_all_self s c _ hen htake
  · intro p hp
    have hmem := List.mem_range'_1.mp hp
    have hlen : (docs.take 1000).length = min 1000 docs.length := List.length_take 1000 docs
    refine warmPagesLoop_get_mem c (docs.take 1000) 20 _ _ p hen1 (List.nodup_range' _ _) hp ?_
    apply List.ne_nil_of_length_pos
    rw [List.length_take, List.length_drop]
    omega
  · intro p hp
    rw [warmPagesLoop_get_not_mem c _ 20 _ _ p 20 hp]
    exact get_page_set_all s c p 20 _
  · intro h1500
    have hlen1000 : (docs.take 1000).length = 1000 := by rw [List.length_take]; omega
    refine ⟨hlen1000, by rw [hlen1000]; omega, ?_⟩
    intro p hp
    have hmem := List.mem_range'_1.mp hp
    rw [List.length_take, List.length_drop, hlen1000]
    omega

theorem warm_container_cap_witness :
    ((CacheService.init (some "u")).warm_cache_for_container "mlb"
        (List.replicate 1500 [("Id", "1")])).get_all_cache "mlb" =
      some ((List.replicate 1500 [("Id", "1")]).take 1000) :=
  (warm_container_cap (CacheService.init (some "u")) "mlb"
      (List.replicate 1500 [("Id", "1")]) rfl
      (by apply List.ne_nil_of_length_pos; rw [List.length_replicate]; omega)).1

/-- C10: restricted to colon-free container names and search queries, the key
builder separates the Coordinator operations: page keys determine container,
page and limit; all keys determine the container; search keys determine
container, case-folded query and field; and keys of distinct operation kinds
never collide.  Without the restriction separation fails: a search key for
container "c" with query "x:all" equals the all key of container
"c:search:field=f:query=x". -/
theorem key_space_injective :
    ∀ (c1 c2 q1 q2 f1 f2 : String) (p1 l1 p2 l2 : Nat),
      ':' ∉ c1.data → ':' ∉ c2.data → ':' ∉ q1.data → ':' ∉ q2.data →
      ((getKey "page" c1 [("page", Nat.repr p1), ("limit", Nat.repr l1)] =
          getKey "page" c2 [("page", Nat.repr p2), ("limit", Nat.repr l2)] →
        c1 = c2 ∧ p1 = p2 ∧ l1 = l2) ∧
       (getKey "all" c1 [] = getKey "all" c2 [] → c1 = c2) ∧
       (getKey "search" c1 [("query", pyLower q1), ("field", f1)] =
          getKey "search" c2 [("query", pyLower q2), ("field", f2)] →
        c1 = c2 ∧ pyLower q1 = pyLower q2 ∧ f1 = f2) ∧
       getKey "page" c1 [("page", Nat.repr p1), ("limit", Nat.repr l1)] ≠
         getKey "all" c2 [] ∧
       getKey "page" c1 [("page", Nat.repr p1), ("limit", Nat.repr l1)] ≠
         getKey "search" c2 [("query", pyLower q2), ("field", f2)] ∧
       getKey "all" c1 [] ≠ getKey "search" c2 [("query", pyLower q2), ("field", f2)] ∧
       getKey "search" "c" [("query", pyLower "x:all"), ("field", "f")] =
         getKey "all" "c:search:field=f:query=x" []) := by
  intro c1 c2 q1 q2 f1 f2 p1 l1 p2 l2 hc1 hc2 hq1 hq2
  exact ⟨pageKey_inj hc1 hc2, allKey_inj hc1 hc2, searchKey_inj hc1 hc2 hq1 hq2,
    pageKey_ne_allKey p1 l1 hc1 hc2, pageKey_ne_searchKey p1 l1 q2 f2 hc1 hc2,
    allKey_ne_searchKey q2 f2 hc1 hc2, by decide⟩

theorem key_space_injective_witness :
    getKey "search" "c" [("query", pyLower "x:all"), ("field", "f")] =
      getKey "all" "c:search:field=f:query=x" [] :=
  (key_space_injective "a" "b" "q" "r" "f" "g" 1 2 3 4 (by decide) (by decide) (by decide)
      (by decide)).2.2.2.2.2.2

/-- C3 as stated is false: warming "nba-official" with a non-empty list of
fewer than 20 records writes the page-1 entry as well as the "all" entry, so
stats reports 2 keys for it, not 1. -/
theorem stats_small_container_counterexample :
    lookupCount
        ((((CacheService.init (some "u")).warm_cache_for_container "mlb"
              (List.replicate 41 [("Id", "1")])).warm_cache_for_container "nba-official"
              (List.replicate 5 [("Id", "2")])).get_cache_stats).keysByContainer
        "nba-official" ≠ some 1 := by
  decide

/-- C3 amended: starting from an empty cache, warming "mlb" with at least 41
records (3 pages plus the all entry) and then "nba-official" with a non-empty
list of fewer than 20 records (1 page plus the all entry), stats groups the
keys as mlb = 4 and nba-official = 2. -/
theorem stats_after_two_warms :
    ∀ (u : String) (rM rN : List Record),
      41 ≤ rM.length → 1 ≤ rN.length → rN.length < 20 →
      lookupCount
          ((((CacheService.init (some u)).warm_cache_for_container "mlb"
                rM).warm_cache_for_container "nba-official" rN).get_cache_stats).keysByContainer
          "mlb" = some 4 ∧
      lookupCount
          ((((CacheService.init (some u)).warm_cache_for_container "mlb"
                rM).warm_cache_for_container "nba-official" rN).get_cache_stats).keysByContainer
          "nba-official" = some 2 := by
  intro u rM rN hM hN1 hN2
  have hdM : rM ≠ [] := by
    intro h
    rw [h] at hM
    simp at hM
  have htM : rM.take 1000 ≠ [] := by
    apply List.ne_nil_of_length_pos
    rw [List.length_take]
    omega
  have hdN : rN ≠ [] := by
    intro h
    rw [h] at hN1
    simp at hN1
  have htN : rN.take 1000 ≠ [] := by
    apply List.ne_nil_of_length_pos
    rw [List.length_take]
    omega
  have h1ne : ((rM.take 1000).drop ((1 - 1) * 20)).take 20 ≠ [] := by
    apply List.ne_nil_of_length_pos
    rw [List.length_take, List.length_drop, List.length_take]
    omega
  have h2ne : ((rM.take 1000).drop ((2 - 1) * 20)).take 20 ≠ [] := by
    apply List.ne_nil_of_length_pos
    rw [List.length_take, List.length_drop, List.length_take]
    omega
  have h3ne : ((rM.take 1000).drop ((3 - 1) * 20)).take 20 ≠ [] := by
    apply List.ne_nil_of_length_pos
    rw [List.length_take, List.length_drop, List.length_take]
    omega
  have hN1ne : ((rN.take 1000).drop ((1 - 1) * 20)).take 20 ≠ [] := by
    apply List.ne_nil_of_length_pos
    rw [List.length_take, List.length_drop, List.length_take]
    omega
  rw [warm_eq (CacheService.init (some u)) "mlb" rM rfl hdM]
  rw [show min 3 (((rM.take 1000).length + 19) / 20) = 3 from by rw [List.length_take]; omega]
  rw [warm_eq _ "nba-official" rN
    (by rw [warmPagesLoop_enabled]; simp [CacheService.init]) hdN]
  rw [show min 3 (((rN.take 1000).length + 19) / 20) = 1 from by rw [List.length_take]; omega]
  rw [show List.range' 1 3 = [1, 2, 3] from rfl, show List.range' 1 1 = [1] from rfl]
  simp only [warmPagesLoop]
  rw [if_neg (fun hie => h1ne (List.isEmpty_iff.mp hie)),
    if_neg (fun hie => h2ne (List.isEmpty_iff.mp hie)),
    if_neg (fun hie => h3ne (List.isEmpty_iff.mp hie)),
    if_neg (fun hie => hN1ne (List.isEmpty_iff.mp hie))]
  rw [get_cache_stats_eq _ (by simp [CacheService.init])]
  simp only [globKeys]
  rw [keys_set_page _ "nba-official" 1 _ 20 (by simp [CacheService.init]) hN1ne,
    keys_set_all _ "nba-official" _ (by simp [CacheService.init]) htN,
    keys_set_page _ "mlb" 3 _ 20 (by simp [CacheService.init]) h3ne,
    keys_set_page _ "mlb" 2 _ 20 (by simp [CacheService.init]) h2ne,
    keys_set_page _ "mlb" 1 _ 20 (by simp [CacheService.init]) h1ne,
    keys_set_all _ "mlb" _ (by simp [CacheService.init]) htM]
  simp only [CacheService.init]
  decide

theorem stats_after_two_warms_witness :
    lookupCount
        ((((CacheService.init (some "u")).warm_cache_for_container "mlb"
              (List.replicate 41 [("Id", "1")])).warm_cache_for_container "nba-official"
              (List.replicate 5 [("Id", "2")])).get_cache_stats).keysByContainer
        "mlb" = some 4 :=
  (stats_after_two_warms "u" (List.replicate 41 [("Id", "1")])
    (List.replicate 5 [("Id", "2")]) (by decide) (by decide) (by decide)).1

end CacheSpec
